import Mathlib

/-!
Shallow embedding of `src/backend/server.py` (a FastAPI + MongoDB marketplace
backend for street-market vendors).  The document store is modelled as three
in-memory lists (vendors, products, orders); the Mongo driver primitives
`find_one`, `update_one`, `delete_one` are modelled on lists with their
first-match semantics.  Python ints are `Int`, Python floats are `Rat`
(exact rationals standing in for IEEE doubles), `datetime` fields are
omitted because no claim consults them.
-/

namespace Feirantes

/-- `Product` model (server.py lines 66-75).  `created_at` omitted. -/
structure Product where
  id : String
  vendor_id : String
  nome : String
  descricao : String
  preco : Rat
  quantidade : Int
  categoria : String
  imagem : Option String
deriving Repr, DecidableEq

/-- `ProductCreate` request body (server.py lines 77-83).  Note: no lower
bound is declared on `quantidade` in the source. -/
structure ProductCreate where
  nome : String
  descricao : String
  preco : Rat
  quantidade : Int
  categoria : String
  imagem : Option String
deriving Repr, DecidableEq

/-- One raw line-item dict of an order:
`{"product_id": str, "nome": str, "preco": float, "quantidade": int}`
(server.py line 92 comment; items are plain dicts, not validated models). -/
structure OrderItem where
  product_id : String
  nome : String
  preco : Rat
  quantidade : Int
deriving Repr, DecidableEq

/-- `Order` model (server.py lines 85-95).  The insert at line 283 stores
`order_data.dict()` which has no `status` key; every read path goes through
`Order(**doc)` whose pydantic default fills `status = "novo"`, so storing
the string `"novo"` here is observationally equivalent.  `created_at`
omitted. -/
structure Order where
  id : String
  vendor_id : String
  cliente_nome : String
  cliente_telefone : String
  cliente_endereco : String
  observacoes : Option String
  items : List OrderItem
  total : Rat
  status : String
deriving Repr, DecidableEq

/-- `OrderCreate` request body (server.py lines 97-103). -/
structure OrderCreate where
  vendor_id : String
  cliente_nome : String
  cliente_telefone : String
  cliente_endereco : String
  observacoes : Option String
  items : List OrderItem
deriving Repr, DecidableEq

/-- `Vendor` model (server.py lines 38-45), password kept as stored hash;
`created_at` omitted. -/
structure Vendor where
  id : String
  nome : String
  email : String
  telefone : String
  senha : String
  nome_loja : String
deriving Repr, DecidableEq

/-- The whole document store: collections `db.vendors`, `db.products`,
`db.orders`, each a list in insertion order. -/
structure DB where
  vendors : List Vendor
  products : List Product
  orders : List Order
deriving Repr, DecidableEq

/-- `fastapi.HTTPException(status_code, detail)`. -/
inductive ApiError where
  | http (status_code : Nat) (detail : String)
deriving Repr, DecidableEq

/-- Mongo `collection.update_one(filter, update)`: applies `f` to the first
element matching `pred`, leaves the rest unchanged. -/
def mongoUpdateOne {α : Type} (pred : α → Bool) (f : α → α) : List α → List α
  | [] => []
  | x :: xs => if pred x then f x :: xs else x :: mongoUpdateOne pred f xs

/-- Mongo `collection.delete_one(filter)`: removes the first element
matching `pred`. -/
def mongoDeleteOne {α : Type} (pred : α → Bool) : List α → List α
  | [] => []
  | x :: xs => if pred x then xs else x :: mongoDeleteOne pred xs

/-- Validation loop of `create_order` (server.py lines 265-270): for each
item, `find_one({"id": item["product_id"]})`; 404 if absent, 400 if
`product["quantidade"] < item["quantidade"]`.  Returns the first error
raised, or `none` when the whole loop passes.  Read-only. -/
def validateItems (products : List Product) : List OrderItem → Option ApiError
  | [] => none
  | item :: rest =>
    match products.find? (fun p => p.id == item.product_id) with
    | none => some (.http 404 ("Produto " ++ item.nome ++ " não encontrado"))
    | some p =>
      if p.quantidade < item.quantidade then
        some (.http 400 ("Estoque insuficiente para o produto " ++ item.nome))
      else
        validateItems products rest

/-- One step of the decrement loop (server.py lines 272-276):
`update_one({"id": pid}, {"$inc": {"quantidade": -q}})`. -/
def decrementStock (pid : String) (q : Int) (products : List Product) :
    List Product :=
  mongoUpdateOne (fun p => p.id == pid)
    (fun p => { p with quantidade := p.quantidade - q }) products

/-- The full decrement phase of `create_order`, one `update_one` per item in
order. -/
def applyDecrements (items : List OrderItem) (products : List Product) :
    List Product :=
  items.foldl
    (fun ps item => decrementStock item.product_id item.quantidade ps) products

/-- `POST /api/orders` (server.py lines 262-284).  `newId` stands for the
generated `uuid4`.  Phase 1 validates all items read-only; phase 2
decrements stock unconditionally; then `total` is computed from the
request-supplied price/quantity pairs and one order document is inserted. -/
def create_order (db : DB) (order_data : OrderCreate) (newId : String) :
    Except ApiError (DB × Order) :=
  match validateItems db.products order_data.items with
  | some e => .error e
  | none =>
    let products' := applyDecrements order_data.items db.products
    let total := (order_data.items.map
      (fun item => item.preco * (item.quantidade : Rat))).sum
    let order : Order :=
      { id := newId
        vendor_id := order_data.vendor_id
        cliente_nome := order_data.cliente_nome
        cliente_telefone := order_data.cliente_telefone
        cliente_endereco := order_data.cliente_endereco
        observacoes := order_data.observacoes
        items := order_data.items
        total := total
        status := "novo" }
    .ok ({ db with products := products', orders := db.orders ++ [order] },
         order)

/-- `POST /api/products` (server.py lines 164-172): inserts a product with
the authenticated vendor's id; no bound on `quantidade` is checked.
`newId` stands for the generated `uuid4`. -/
def create_product (db : DB) (vendorId newId : String)
    (product_data : ProductCreate) : DB × Product :=
  let p : Product :=
    { id := newId
      vendor_id := vendorId
      nome := product_data.nome
      descricao := product_data.descricao
      preco := product_data.preco
      quantidade := product_data.quantidade
      categoria := product_data.categoria
      imagem := product_data.imagem }
  ({ db with products := db.products ++ [p] }, p)

/-- The `$set` of `update_product`: replaces the `ProductCreate` fields,
keeping `id` and `vendor_id`. -/
def setProductFields (product_data : ProductCreate) (p : Product) : Product :=
  { p with
    nome := product_data.nome
    descricao := product_data.descricao
    preco := product_data.preco
    quantidade := product_data.quantidade
    categoria := product_data.categoria
    imagem := product_data.imagem }

/-- `PUT /api/products/{product_id}` (server.py lines 184-196):
`find_one({"id": product_id, "vendor_id": vendor})`, 404 when absent;
otherwise `update_one({"id": product_id}, {"$set": fields})` (note the
update filter drops the vendor condition) and the updated product is
re-fetched by id alone. -/
def update_product (db : DB) (vendorId productId : String)
    (product_data : ProductCreate) : Except ApiError (DB × Option Product) :=
  match db.products.find?
      (fun p => p.id == productId && p.vendor_id == vendorId) with
  | none => .error (.http 404 "Produto não encontrado")
  | some _ =>
    let products' := mongoUpdateOne (fun p => p.id == productId)
      (setProductFields product_data) db.products
    .ok ({ db with products := products' },
         products'.find? (fun p => p.id == productId))

/-- `DELETE /api/products/{product_id}` (server.py lines 198-204):
`delete_one({"id": product_id, "vendor_id": vendor})`, 404 when
`deleted_count == 0`. -/
def delete_product (db : DB) (vendorId productId : String) :
    Except ApiError DB :=
  let owned := fun (p : Product) => p.id == productId && p.vendor_id == vendorId
  if db.products.any owned then
    .ok { db with products := mongoDeleteOne owned db.products }
  else
    .error (.http 404 "Produto não encontrado")

/-- FastAPI validation of the query parameters
`skip: int = Query(0, ge=0)` and `limit: int = Query(20, ge=1, le=100)`
(server.py lines 177-178 and 289-290).  FastAPI enforces `ge`/`le` as
constraints: an out-of-range value is rejected with a 422 validation
error; no clamping takes place. -/
def validatePagination (skip limit : Int) : Except ApiError (Int × Int) :=
  if skip < 0 then .error (.http 422 "validation error")
  else if limit < 1 then .error (.http 422 "validation error")
  else if 100 < limit then .error (.http 422 "validation error")
  else .ok (skip, limit)

/-- `GET /api/products/my` (server.py lines 174-182): count plus
`find({"vendor_id": v}).skip(skip).limit(limit).to_list(limit)`. -/
def get_my_products (db : DB) (vendorId : String) (skip limit : Int) :
    Except ApiError (Nat × List Product) :=
  match validatePagination skip limit with
  | .error e => .error e
  | .ok (s, l) =>
    let mine := db.products.filter (fun p => p.vendor_id == vendorId)
    .ok (mine.length, (mine.drop s.toNat).take l.toNat)

/-- `GET /api/orders/my` (server.py lines 286-294): same pagination contract
over the orders collection. -/
def get_my_orders (db : DB) (vendorId : String) (skip limit : Int) :
    Except ApiError (Nat × List Order) :=
  match validatePagination skip limit with
  | .error e => .error e
  | .ok (s, l) =>
    let mine := db.orders.filter (fun o => o.vendor_id == vendorId)
    .ok (mine.length, (mine.drop s.toNat).take l.toNat)

/-- `PUT /api/orders/{order_id}/status` (server.py lines 296-306):
`update_one({"id": order_id, "vendor_id": vendor}, {"$set": {"status": s}})`,
404 when `matched_count == 0`.  `newStatus` is the raw value of the body's
`status` key; no transition validation. -/
def update_order_status (db : DB) (vendorId orderId newStatus : String) :
    Except ApiError DB :=
  let pred := fun (o : Order) => o.id == orderId && o.vendor_id == vendorId
  if db.orders.any pred then
    .ok { db with orders :=
      mongoUpdateOne pred (fun o => { o with status := newStatus }) db.orders }
  else
    .error (.http 404 "Pedido não encontrado")

/-- The part of `GET /api/dashboard` the claims consult (server.py lines
308-317): `find({"vendor_id": v}).to_list(1000)` — at most the first 1000
matching orders — then `total_vendas = sum(order.get("total", 0))` and
`quantidade_pedidos = len(orders)`.  No status is consulted. -/
structure DashboardSummary where
  total_vendas : Rat
  quantidade_pedidos : Nat
deriving Repr, DecidableEq

def get_dashboard (db : DB) (vendorId : String) : DashboardSummary :=
  let orders :=
    (db.orders.filter (fun o => o.vendor_id == vendorId)).take 1000
  { total_vendas := (orders.map Order.total).sum
    quantidade_pedidos := orders.length }

/-- One sequential API request that can touch the store.  Read-only
endpoints are omitted: they never change state. -/
inductive Op where
  | createProduct (vendorId newId : String) (product_data : ProductCreate)
  | updateProduct (vendorId productId : String) (product_data : ProductCreate)
  | deleteProduct (vendorId productId : String)
  | createOrder (order_data : OrderCreate) (newId : String)
  | updateOrderStatus (vendorId orderId newStatus : String)
deriving Repr, DecidableEq

/-- Effect of one request on the store; a request that raises an
`HTTPException` leaves the store unchanged (every handler validates before
mutating, and `update_one` with `matched_count == 0` wrote nothing). -/
def step (db : DB) : Op → DB
  | .createProduct v nid pd => (create_product db v nid pd).1
  | .updateProduct v pid pd =>
    match update_product db v pid pd with
    | .ok (db', _) => db'
    | .error _ => db
  | .deleteProduct v pid =>
    match delete_product db v pid with
    | .ok db' => db'
    | .error _ => db
  | .createOrder od nid =>
    match create_order db od nid with
    | .ok (db', _) => db'
    | .error _ => db
  | .updateOrderStatus v oid s =>
    match update_order_status db v oid s with
    | .ok db' => db'
    | .error _ => db

/-- Sequential execution of a list of requests, one at a time. -/
def run (db : DB) (ops : List Op) : DB :=
  ops.foldl step db

/-- Total quantity requested for product id `pid` across the line items of
one order request (the sum is over possibly repeated line items). -/
def requestedQty (items : List OrderItem) (pid : String) : Int :=
  ((items.filter (fun i => i.product_id == pid)).map OrderItem.quantidade).sum

/-! Generic facts about the modelled Mongo list primitives. -/

lemma mem_mongoUpdateOne {α : Type} {pred : α → Bool} {f : α → α}
    {l : List α} {x : α} (hx : x ∈ mongoUpdateOne pred f l) :
    x ∈ l ∨ ∃ y, y ∈ l ∧ pred y = true ∧ x = f y := by
  induction l with
  | nil => simp [mongoUpdateOne] at hx
  | cons a t ih =>
    by_cases h : pred a
    · rw [mongoUpdateOne, if_pos h] at hx
      rcases List.mem_cons.mp hx with h1 | h1
      · exact Or.inr ⟨a, List.mem_cons_self a t, h, h1⟩
      · exact Or.inl (List.mem_cons_of_mem _ h1)
    · rw [mongoUpdateOne, if_neg h] at hx
      rcases List.mem_cons.mp hx with h1 | h1
      · exact Or.inl (h1 ▸ List.mem_cons_self a t)
      · rcases ih h1 with h2 | ⟨y, hy, hpy, hxy⟩
        · exact Or.inl (List.mem_cons_of_mem _ h2)
        · exact Or.inr ⟨y, List.mem_cons_of_mem _ hy, hpy, hxy⟩

lemma mem_mongoDeleteOne {α : Type} {pred : α → Bool}
    {l : List α} {x : α} (hx : x ∈ mongoDeleteOne pred l) : x ∈ l := by
  induction l with
  | nil => simp [mongoDeleteOne] at hx
  | cons a t ih =>
    by_cases h : pred a
    · rw [mongoDeleteOne, if_pos h] at hx
      exact List.mem_cons_of_mem _ hx
    · rw [mongoDeleteOne, if_neg h] at hx
      rcases List.mem_cons.mp hx with h1 | h1
      · exact h1 ▸ List.mem_cons_self a t
      · exact List.mem_cons_of_mem _ (ih h1)

/-- When at most one element matches, `update_one` agrees with updating
every matching element. -/
lemma mongoUpdateOne_eq_map {α : Type} {pred : α → Bool} {f : α → α} :
    ∀ {l : List α}, (l.filter pred).length ≤ 1 →
      mongoUpdateOne pred f l = l.map (fun x => if pred x then f x else x)
  | [], _ => rfl
  | a :: t, h => by
    by_cases hp : pred a
    · have ht : t.filter pred = [] := by
        rw [List.filter_cons_of_pos hp, List.length_cons] at h
        have hz : (t.filter pred).length = 0 := by omega
        exact List.length_eq_zero.mp hz
      have hmap : t.map (fun x => if pred x then f x else x) = t := by
        have hall := List.filter_eq_nil_iff.mp ht
        calc t.map (fun x => if pred x then f x else x)
            = t.map id := by
              refine List.map_congr_left ?_
              intro x hx
              simp [hall x hx]
          _ = t := List.map_id t
      simp [mongoUpdateOne, hp, hmap]
    · rw [List.filter_cons_of_neg hp] at h
      simp [mongoUpdateOne, hp, mongoUpdateOne_eq_map h]

lemma filter_length_le_of_imp {α : Type} {p q : α → Bool} :
    ∀ (l : List α), (∀ x ∈ l, p x = true → q x = true) →
      (l.filter p).length ≤ (l.filter q).length
  | [], _ => Nat.le_refl 0
  | a :: t, h => by
    have ht := filter_length_le_of_imp t (fun x hx => h x (List.mem_cons_of_mem _ hx))
    by_cases hp : p a
    · rw [List.filter_cons_of_pos hp,
        List.filter_cons_of_pos (h a (List.mem_cons_self a t) hp)]
      simpa using ht
    · rw [List.filter_cons_of_neg hp]
      by_cases hq : q a
      · rw [List.filter_cons_of_pos hq]
        exact Nat.le_succ_of_le ht
      · rw [List.filter_cons_of_neg hq]
        exact ht

/-- With pairwise-distinct keys, at most one element carries key `k`. -/
lemma filter_key_length_le_one {α β : Type} [DecidableEq β]
    {key : α → β} {k : β} :
    ∀ {l : List α}, (l.map key).Nodup →
      (l.filter (fun x => key x == k)).length ≤ 1
  | [], _ => by simp
  | a :: t, h => by
    rw [List.map_cons, List.nodup_cons] at h
    by_cases hp : key a = k
    · have ht : t.filter (fun x => key x == k) = [] := by
        refine List.filter_eq_nil_iff.mpr ?_
        intro x hx hk
        have hkx : key x = k := by simpa using hk
        exact absurd
          (by rw [hp, ← hkx]; exact List.mem_map_of_mem key hx) h.1
      rw [List.filter_cons_of_pos (by simpa using hp), ht]
      simp
    · rw [List.filter_cons_of_neg (by simpa using hp)]
      exact filter_key_length_le_one h.2

/-- With pairwise-distinct keys, `find_one` by key returns the unique
member carrying that key. -/
lemma find?_key_eq_of_nodup {α β : Type} [DecidableEq β]
    {key : α → β} {k : β} :
    ∀ {l : List α}, (l.map key).Nodup → ∀ {p : α}, p ∈ l → key p = k →
      l.find? (fun x => key x == k) = some p
  | [], _, p, hp, _ => absurd hp (List.not_mem_nil p)
  | a :: t, h, p, hp, hk => by
    rw [List.map_cons, List.nodup_cons] at h
    rcases List.mem_cons.mp hp with h1 | h1
    · subst h1
      exact List.find?_cons_of_pos t (by simpa using hk)
    · have hne : key a ≠ k := by
        intro hak
        exact h.1 (hak ▸ hk ▸ List.mem_map_of_mem key h1)
      rw [List.find?_cons_of_neg t (by simpa using hne)]
      exact find?_key_eq_of_nodup h.2 h1 hk

/-! Facts about the two phases of `create_order`. -/

/-- `validateItems` only consults the product it finds per item id, so two
product lists agreeing on every such lookup validate identically. -/
lemma validateItems_congr {l l' : List Product} :
    ∀ {items : List OrderItem},
      (∀ item ∈ items,
        l'.find? (fun p => p.id == item.product_id)
          = l.find? (fun p => p.id == item.product_id)) →
      validateItems l' items = validateItems l items
  | [], _ => rfl
  | item :: rest, h => by
    simp only [validateItems]
    rw [h item (List.mem_cons_self item rest)]
    cases hf : l.find? (fun p => p.id == item.product_id) with
    | none => rfl
    | some p =>
      dsimp only
      by_cases hq : p.quantidade < item.quantidade
      · rw [if_pos hq, if_pos hq]
      · rw [if_neg hq, if_neg hq]
        exact validateItems_congr fun i hi => h i (List.mem_cons_of_mem _ hi)

/-- Decrementing one product's stock does not affect lookups of a
different product id. -/
lemma find?_decrementStock_ne {pid pid' : String} (q : Int)
    (hne : pid' ≠ pid) :
    ∀ (l : List Product),
      (decrementStock pid q l).find? (fun p => p.id == pid')
        = l.find? (fun p => p.id == pid')
  | [] => rfl
  | a :: t => by
    by_cases ha : a.id = pid
    · have hstep : decrementStock pid q (a :: t)
          = { a with quantidade := a.quantidade - q } :: t := by
        simp [decrementStock, mongoUpdateOne, ha]
      rw [hstep,
        List.find?_cons_of_neg t (by simp [ha]; exact Ne.symm hne),
        List.find?_cons_of_neg t (by simp [ha]; exact Ne.symm hne)]
    · have hstep : decrementStock pid q (a :: t)
          = a :: decrementStock pid q t := by
        simp [decrementStock, mongoUpdateOne, ha]
      rw [hstep]
      by_cases hpd : a.id = pid'
      · rw [List.find?_cons_of_pos _ (by simpa using hpd),
          List.find?_cons_of_pos _ (by simpa using hpd)]
      · rw [List.find?_cons_of_neg _ (by simpa using hpd),
          List.find?_cons_of_neg _ (by simpa using hpd)]
        exact find?_decrementStock_ne q hne t

/-- Stock stays non-negative across one decrement provided the product
found under that id (if any) holds at least the decremented amount. -/
lemma decrementStock_nonneg {pid : String} {q : Int} :
    ∀ {l : List Product}, (∀ p ∈ l, 0 ≤ p.quantidade) →
      (∀ p, l.find? (fun x => x.id == pid) = some p → q ≤ p.quantidade) →
      ∀ p ∈ decrementStock pid q l, 0 ≤ p.quantidade
  | [], _, _ => by simp [decrementStock, mongoUpdateOne]
  | a :: t, hnn, hq => by
    intro p hp
    by_cases ha : a.id = pid
    · have hstep : decrementStock pid q (a :: t)
          = { a with quantidade := a.quantidade - q } :: t := by
        simp [decrementStock, mongoUpdateOne, ha]
      rw [hstep] at hp
      rcases List.mem_cons.mp hp with h1 | h1
      · have hfind : (a :: t).find? (fun x => x.id == pid) = some a :=
          List.find?_cons_of_pos _ (by simpa using ha)

        have hqa := hq a hfind
        have hnna := hnn a (List.mem_cons_self a t)
        rw [h1]
        simp only []
        omega
      · exact hnn p (List.mem_cons_of_mem _ h1)
    · have hstep : decrementStock pid q (a :: t)
          = a :: decrementStock pid q t := by
        simp [decrementStock, mongoUpdateOne, ha]
      rw [hstep] at hp
      rcases List.mem_cons.mp hp with h1 | h1
      · exact h1 ▸ hnn a (List.mem_cons_self a t)
      · refine decrementStock_nonneg
          (fun x hx => hnn x (List.mem_cons_of_mem _ hx)) ?_ p h1
        intro x hx
        refine hq x ?_
        rw [List.find?_cons_of_neg t (by simpa using ha)]
        exact hx

/-- The commit phase keeps all stock non-negative when the validate phase
passed and no product id repeats among the line items. -/
lemma applyDecrements_nonneg :
    ∀ {items : List OrderItem} {l : List Product},
      (∀ p ∈ l, 0 ≤ p.quantidade) →
      validateItems l items = none →
      (items.map OrderItem.product_id).Nodup →
      ∀ p ∈ applyDecrements items l, 0 ≤ p.quantidade
  | [], l, hnn, _, _ => by simpa [applyDecrements] using hnn
  | item :: rest, l, hnn, hval, hnd => by
    simp only [validateItems] at hval
    cases hf : l.find? (fun p => p.id == item.product_id) with
    | none => rw [hf] at hval; exact absurd hval (by simp)
    | some p0 =>
      rw [hf] at hval
      dsimp only at hval
      by_cases hq : p0.quantidade < item.quantidade
      · rw [if_pos hq] at hval; exact absurd hval (by simp)
      · rw [if_neg hq] at hval
        rw [List.map_cons, List.nodup_cons] at hnd
        have hstep : applyDecrements (item :: rest) l
            = applyDecrements rest
                (decrementStock item.product_id item.quantidade l) := by
          simp [applyDecrements]
        rw [hstep]
        have hcg : validateItems
            (decrementStock item.product_id item.quantidade l) rest
            = validateItems l rest := by
          refine validateItems_congr ?_
          intro i hi
          refine find?_decrementStock_ne _ ?_ l
          intro hcon
          exact hnd.1 (hcon ▸ List.mem_map_of_mem OrderItem.product_id hi)
        refine applyDecrements_nonneg ?_ (hcg ▸ hval) hnd.2
        refine decrementStock_nonneg hnn ?_
        intro p hp
        rw [hf] at hp
        injection hp with h
        rw [← h]
        omega

/-- Decrement of a single `update_one` written as a map, valid because
product ids are pairwise distinct. -/
lemma decrementStock_eq_map {pid : String} {q : Int} {l : List Product}
    (hnd : (l.map Product.id).Nodup) :
    decrementStock pid q l
      = l.map (fun p => if p.id == pid
          then { p with quantidade := p.quantidade - q } else p) :=
  mongoUpdateOne_eq_map (filter_key_length_le_one hnd)

lemma map_id_decrementStock {pid : String} {q : Int} :
    ∀ (l : List Product),
      (decrementStock pid q l).map Product.id = l.map Product.id
  | [] => rfl
  | a :: t => by
    by_cases ha : a.id = pid
    · simp [decrementStock, mongoUpdateOne, ha]
    · have hstep : decrementStock pid q (a :: t)
          = a :: decrementStock pid q t := by
        simp [decrementStock, mongoUpdateOne, ha]
      rw [hstep, List.map_cons, List.map_cons, map_id_decrementStock t]

lemma requestedQty_nil (pid : String) : requestedQty [] pid = 0 := rfl

lemma requestedQty_cons (i : OrderItem) (is : List OrderItem)
    (pid : String) :
    requestedQty (i :: is) pid
      = (if i.product_id == pid then i.quantidade else 0)
          + requestedQty is pid := by
  by_cases h : i.product_id = pid
  · simp [requestedQty, List.filter_cons, h]
  · simp [requestedQty, List.filter_cons, h]

/-- The whole commit phase written as one map over the product list: each
product loses exactly the total quantity requested for its id.  Valid
because product ids are pairwise distinct. -/
lemma applyDecrements_eq_map :
    ∀ {items : List OrderItem} {l : List Product},
      (l.map Product.id).Nodup →
      applyDecrements items l
        = l.map (fun p =>
            { p with quantidade := p.quantidade - requestedQty items p.id })
  | [], l, _ => by
    simp only [applyDecrements, List.foldl_nil, requestedQty_nil]
    refine Eq.symm ?_
    calc l.map (fun p => { p with quantidade := p.quantidade - 0 })
        = l.map id := by
          refine List.map_congr_left ?_
          intro p _
          simp
      _ = l := List.map_id l
  | i :: is, l, hnd => by
    have hstep : applyDecrements (i :: is) l
        = applyDecrements is (decrementStock i.product_id i.quantidade l) := by
      simp [applyDecrements]
    rw [hstep,
      applyDecrements_eq_map
        (by rw [map_id_decrementStock]; exact hnd),
      decrementStock_eq_map hnd, List.map_map]
    refine List.map_congr_left ?_
    intro p _
    by_cases h : p.id = i.product_id
    · have h2 : (i.product_id == p.id) = true := by simpa using h.symm
      simp [h, requestedQty_cons, h2]
      omega
    · have h2 : (i.product_id == p.id) = false := by
        simpa using fun hc => h hc.symm
      simp [h, requestedQty_cons, h2]

/-- The validate phase passes when every line item's product exists with
sufficient stock (product ids pairwise distinct). -/
lemma validateItems_eq_none {l : List Product}
    (hnd : (l.map Product.id).Nodup) :
    ∀ {items : List OrderItem},
      (∀ item ∈ items, ∃ p ∈ l,
        p.id = item.product_id ∧ item.quantidade ≤ p.quantidade) →
      validateItems l items = none
  | [], _ => rfl
  | item :: rest, h => by
    obtain ⟨p, hpl, hpid, hpq⟩ := h item (List.mem_cons_self _ _)
    have hf := find?_key_eq_of_nodup hnd hpl hpid
    simp only [validateItems]
    rw [hf]
    dsimp only
    rw [if_neg (by omega : ¬ p.quantidade < item.quantidade)]
    exact validateItems_eq_none hnd fun i hi => h i (List.mem_cons_of_mem _ hi)

/-- When every referenced product exists but some line item over-requests,
the validate phase stops with the 400 insufficient-stock error. -/
lemma validateItems_insufficient {l : List Product}
    (hnd : (l.map Product.id).Nodup) :
    ∀ {items : List OrderItem},
      (∀ item ∈ items, ∃ p ∈ l, p.id = item.product_id) →
      (∃ item ∈ items, ∃ p ∈ l,
        p.id = item.product_id ∧ p.quantidade < item.quantidade) →
      ∃ nome, validateItems l items
        = some (.http 400 ("Estoque insuficiente para o produto " ++ nome))
  | [], _, hins => by simp at hins
  | item :: rest, hex, hins => by
    obtain ⟨p, hpl, hpid⟩ := hex item (List.mem_cons_self _ _)
    have hf := find?_key_eq_of_nodup hnd hpl hpid
    by_cases hq : p.quantidade < item.quantidade
    · refine ⟨item.nome, ?_⟩
      simp only [validateItems]
      rw [hf]
      dsimp only
      rw [if_pos hq]
    · have hins' : ∃ i ∈ rest, ∃ p ∈ l,
          p.id = i.product_id ∧ p.quantidade < i.quantidade := by
        rcases hins with ⟨i, hi, p', hp'l, hp'id, hp'q⟩
        rcases List.mem_cons.mp hi with h1 | h1
        · subst h1
          have hf' := find?_key_eq_of_nodup hnd hp'l hp'id
          rw [hf] at hf'
          injection hf' with he
          exact absurd (he ▸ hp'q) hq
        · exact ⟨i, h1, p', hp'l, hp'id, hp'q⟩
      obtain ⟨nome, hrec⟩ := validateItems_insufficient hnd
        (fun i hi => hex i (List.mem_cons_of_mem _ hi)) hins'
      refine ⟨nome, ?_⟩
      simp only [validateItems]
      rw [hf]
      dsimp only
      rw [if_neg hq]
      exact hrec

/-- Request preconditions under which the non-negative-stock invariant is
preserved by sequential execution: product writes carry a non-negative
quantity, and no order request repeats a product id among its line
items.  (The code enforces neither.) -/
def goodOp : Op → Bool
  | .createProduct _ _ pd => decide (0 ≤ pd.quantidade)
  | .updateProduct _ _ pd => decide (0 ≤ pd.quantidade)
  | .createOrder od _ => decide ((od.items.map OrderItem.product_id).Nodup)
  | _ => true

lemma step_preserves_nonneg {db : DB} {op : Op}
    (h0 : ∀ p ∈ db.products, 0 ≤ p.quantidade) (hop : goodOp op = true) :
    ∀ p ∈ (step db op).products, 0 ≤ p.quantidade := by
  cases op with
  | createProduct v nid pd =>
    intro p hp
    simp only [step, create_product] at hp
    rcases List.mem_append.mp hp with h1 | h1
    · exact h0 p h1
    · have hpd : 0 ≤ pd.quantidade := by simpa [goodOp] using hop
      have hpe := List.mem_singleton.mp h1
      rw [hpe]
      exact hpd
  | updateProduct v pid pd =>
    intro p hp
    cases hfind : db.products.find?
        (fun q => q.id == pid && q.vendor_id == v) with
    | none =>
      simp only [step, update_product, hfind] at hp
      exact h0 p hp
    | some q =>
      simp only [step, update_product, hfind] at hp
      rcases mem_mongoUpdateOne hp with h1 | ⟨y, _, _, hxy⟩
      · exact h0 p h1
      · have hpd : 0 ≤ pd.quantidade := by simpa [goodOp] using hop
        rw [hxy]
        exact hpd
  | deleteProduct v pid =>
    intro p hp
    by_cases hany : db.products.any
        (fun q => q.id == pid && q.vendor_id == v)
    · simp only [step, delete_product, hany, if_true] at hp
      exact h0 p (mem_mongoDeleteOne hp)
    · simp only [step, delete_product, hany, if_false,
        Bool.false_eq_true] at hp
      exact h0 p hp
  | createOrder od nid =>
    cases hval : validateItems db.products od.items with
    | some e =>
      simp only [step, create_order, hval]
      exact h0
    | none =>
      simp only [step, create_order, hval]
      have hnd : (od.items.map OrderItem.product_id).Nodup := by
        simpa [goodOp] using hop
      exact applyDecrements_nonneg h0 hval hnd
  | updateOrderStatus v oid s =>
    intro p hp
    by_cases hany : db.orders.any
        (fun o => o.id == oid && o.vendor_id == v)
    · simp only [step, update_order_status, hany, if_true] at hp
      exact h0 p hp
    · simp only [step, update_order_status, hany, if_false,
        Bool.false_eq_true] at hp
      exact h0 p hp

/-! Concrete fixtures used by witnesses and counterexamples. -/

def vendorA : Vendor :=
  { id := "A", nome := "Ana", email := "ana@ex", telefone := "11",
    senha := "h1", nome_loja := "lojaA" }

def vendorB : Vendor :=
  { id := "B", nome := "Bia", email := "bia@ex", telefone := "22",
    senha := "h2", nome_loja := "lojaB" }

/-- Owned by vendor `B`, stock 5. -/
def prodT : Product :=
  { id := "p1", vendor_id := "B", nome := "Tomate", descricao := "org",
    preco := 17/2, quantidade := 5, categoria := "vl", imagem := none }

/-- Owned by vendor `A`, stock 4. -/
def prodU : Product :=
  { id := "p2", vendor_id := "A", nome := "Uva", descricao := "doce",
    preco := 3, quantidade := 4, categoria := "fr", imagem := none }

def dbFix : DB :=
  { vendors := [vendorA, vendorB], products := [prodT, prodU],
    orders := [] }

/-- The order document a successful `create_order` builds and persists
(server.py lines 277-284), spelled out. -/
def builtOrder (od : OrderCreate) (newId : String) : Order :=
  { id := newId
    vendor_id := od.vendor_id
    cliente_nome := od.cliente_nome
    cliente_telefone := od.cliente_telefone
    cliente_endereco := od.cliente_endereco
    observacoes := od.observacoes
    items := od.items
    total := (od.items.map (fun i => i.preco * (i.quantidade : Rat))).sum
    status := "novo" }

/-- Inversion of a successful `create_order`. -/
lemma create_order_ok_inv {db : DB} {od : OrderCreate} {newId : String}
    {db' : DB} {order : Order}
    (h : create_order db od newId = .ok (db', order)) :
    validateItems db.products od.items = none
    ∧ order = builtOrder od newId
    ∧ db' = { db with
        products := applyDecrements od.items db.products
        orders := db.orders ++ [builtOrder od newId] } := by
  cases hval : validateItems db.products od.items with
  | some e => simp [create_order, hval] at h
  | none =>
    simp only [create_order, hval] at h
    injection h with hp
    injection hp with hdb hord
    exact ⟨rfl, hord.symm, hdb.symm⟩

/-- `find_one` by product id commutes with rewriting every stored price. -/
lemma find?_map_preco (g : String → Rat) (pid : String) :
    ∀ (l : List Product),
      (l.map (fun p => { p with preco := g p.id })).find?
          (fun p => p.id == pid)
        = (l.find? (fun p => p.id == pid)).map
            (fun p => { p with preco := g p.id })
  | [] => rfl
  | a :: t => by
    by_cases ha : a.id = pid
    · rw [List.map_cons,
        List.find?_cons_of_pos _ (by simpa using ha),
        List.find?_cons_of_pos _ (by simpa using ha)]
      rfl
    · rw [List.map_cons,
        List.find?_cons_of_neg _ (by simpa using ha),
        List.find?_cons_of_neg _ (by simpa using ha)]
      exact find?_map_preco g pid t

/-- The validate phase never reads a stored price: rewriting every
product's price leaves its outcome unchanged. -/
lemma validateItems_map_preco (g : String → Rat) {l : List Product} :
    ∀ (items : List OrderItem),
      validateItems (l.map (fun p => { p with preco := g p.id })) items
        = validateItems l items
  | [] => rfl
  | item :: rest => by
    simp only [validateItems]
    rw [find?_map_preco]
    cases hf : l.find? (fun p => p.id == item.product_id) with
    | none => rfl
    | some p =>
      dsimp only [Option.map]
      by_cases hq : p.quantidade < item.quantidade
      · rw [if_pos hq, if_pos hq]
      · rw [if_neg hq, if_neg hq]
        exact validateItems_map_preco g rest

/-- Filtering commutes with a map that leaves the predicate unchanged. -/
lemma filter_map_pred_eq {α : Type} {f : α → α} {p : α → Bool}
    (hf : ∀ x, p (f x) = p x) :
    ∀ (l : List α), (l.map f).filter p = (l.filter p).map f
  | [] => rfl
  | a :: t => by
    by_cases hp : p a
    · rw [List.map_cons, List.filter_cons_of_pos (by rw [hf]; exact hp),
        List.filter_cons_of_pos hp, List.map_cons,
        filter_map_pred_eq hf t]
    · rw [List.map_cons,
        List.filter_cons_of_neg (by rw [hf]; simpa using hp),
        List.filter_cons_of_neg hp, filter_map_pred_eq hf t]

lemma take_replicate_comm {α : Type} (a : α) :
    ∀ (n m : Nat), (List.replicate m a).take n
      = List.replicate (min n m) a
  | 0, m => by simp
  | n + 1, 0 => by simp
  | n + 1, m + 1 => by
    rw [List.replicate_succ, List.take_succ_cons,
      take_replicate_comm a n m, Nat.succ_min_succ, List.replicate_succ]

lemma run_nonneg_aux :
    ∀ (ops : List Op) (db : DB),
      (∀ p ∈ db.products, 0 ≤ p.quantidade) →
      (∀ op ∈ ops, goodOp op = true) →
      ∀ p ∈ (run db ops).products, 0 ≤ p.quantidade
  | [], _, h0, _ => h0
  | op :: t, db, h0, hops => by
    rw [run, List.foldl_cons]
    exact run_nonneg_aux t (step db op)
      (step_preserves_nonneg h0 (hops op (List.mem_cons_self _ _)))
      (fun o ho => hops o (List.mem_cons_of_mem _ ho))

/-! Claim theorems. -/

instance {ε α : Type} [DecidableEq ε] [DecidableEq α] :
    DecidableEq (Except ε α)
  | .error a, .error b =>
    if h : a = b then .isTrue (h ▸ rfl)
    else .isFalse (fun hc => h (Except.error.inj hc))
  | .error _, .ok _ => .isFalse Except.noConfusion
  | .ok _, .error _ => .isFalse Except.noConfusion
  | .ok a, .ok b =>
    if h : a = b then .isTrue (h ▸ rfl)
    else .isFalse (fun hc => h (Except.ok.inj hc))

/-- C1 (counterexample to the claim as stated): in `dbFix`, the order
below contains a line item whose product `p1` holds quantity 5 but is
asked for 10, yet `create_order` fails with the 404 product-not-found
error (for the preceding ghost item), not with the 400
insufficient-stock error. -/
def odMixFix : OrderCreate :=
  { vendor_id := "A", cliente_nome := "Joao", cliente_telefone := "99"
    cliente_endereco := "Rua 1", observacoes := none
    items := [
      { product_id := "p9", nome := "Fantasma", preco := 1, quantidade := 1 },
      { product_id := "p1", nome := "Tomate", preco := 12, quantidade := 10 }] }

theorem create_order_notfound_precedes_insufficient :
    (∃ item ∈ odMixFix.items, ∃ p ∈ dbFix.products,
      p.id = item.product_id ∧ p.quantidade < item.quantidade)
    ∧ create_order dbFix odMixFix "o1"
        = .error (.http 404 ("Produto Fantasma não encontrado")) := by
  decide

/-- C1 (amended): provided every line item references an existing product
(product ids pairwise distinct), if some line item requests more than the
current stock then `create_order` fails with the 400 insufficient-stock
error, no product quantity changes and no order is persisted. -/
theorem create_order_insufficient_stock (db : DB) (od : OrderCreate)
    (newId : String)
    (hnd : (db.products.map Product.id).Nodup)
    (hex : ∀ item ∈ od.items, ∃ p ∈ db.products, p.id = item.product_id)
    (hins : ∃ item ∈ od.items, ∃ p ∈ db.products,
      p.id = item.product_id ∧ p.quantidade < item.quantidade) :
    (∃ nome, create_order db od newId
      = .error (.http 400 ("Estoque insuficiente para o produto " ++ nome)))
    ∧ step db (.createOrder od newId) = db := by
  obtain ⟨nome, hval⟩ := validateItems_insufficient hnd hex hins
  exact ⟨⟨nome, by simp [create_order, hval]⟩,
    by simp [step, create_order, hval]⟩

def odInsFix : OrderCreate :=
  { vendor_id := "A", cliente_nome := "Joao", cliente_telefone := "99"
    cliente_endereco := "Rua 1", observacoes := none
    items := [
      { product_id := "p1", nome := "Tomate", preco := 12, quantidade := 10 }] }

theorem create_order_insufficient_stock_witness :
    (∃ nome, create_order dbFix odInsFix "o1"
      = .error (.http 400 ("Estoque insuficiente para o produto " ++ nome)))
    ∧ step dbFix (.createOrder odInsFix "o1") = dbFix :=
  create_order_insufficient_stock dbFix odInsFix "o1"
    (by decide) (by decide) (by decide)

/-- C2: when every line item's product exists with sufficient stock
(product ids pairwise distinct), `create_order` decrements each referenced
product's quantity by exactly the quantity requested for its id, leaves
every other product (and the vendor table) unchanged, and appends exactly
one new order whose status is `"novo"`. -/
theorem create_order_success_spec (db : DB) (od : OrderCreate)
    (newId : String)
    (hnd : (db.products.map Product.id).Nodup)
    (hstock : ∀ item ∈ od.items, ∃ p ∈ db.products,
      p.id = item.product_id ∧ item.quantidade ≤ p.quantidade) :
    ∃ order : Order,
      create_order db od newId = .ok
        ({ vendors := db.vendors
           products := db.products.map (fun p =>
             { p with quantidade :=
                 p.quantidade - requestedQty od.items p.id })
           orders := db.orders ++ [order] }, order)
      ∧ order.status = "novo" ∧ order.id = newId := by
  have hval : validateItems db.products od.items = none :=
    validateItems_eq_none hnd hstock
  refine ⟨builtOrder od newId, ?_, rfl, rfl⟩
  simp only [create_order, hval]
  rw [applyDecrements_eq_map hnd]
  rfl

def odPairFix : OrderCreate :=
  { vendor_id := "A", cliente_nome := "Joao", cliente_telefone := "99"
    cliente_endereco := "Rua 1", observacoes := none
    items := [
      { product_id := "p1", nome := "Tomate", preco := 12, quantidade := 2 },
      { product_id := "p2", nome := "Uva", preco := 3, quantidade := 4 }] }

theorem create_order_success_spec_witness :
    ∃ order : Order,
      create_order dbFix odPairFix "o1" = .ok
        ({ vendors := dbFix.vendors
           products := dbFix.products.map (fun p =>
             { p with quantidade :=
                 p.quantidade - requestedQty odPairFix.items p.id })
           orders := dbFix.orders ++ [order] }, order)
      ∧ order.status = "novo" ∧ order.id = "o1" :=
  create_order_success_spec dbFix odPairFix "o1" (by decide) (by decide)

/-- C3: a successfully created order's total is the sum of the
request-supplied price times the request-supplied quantity over its line
items (which are the request's items verbatim); rewriting every stored
product price changes nothing about the returned order, showing the
price is not re-fetched from the stored `Product`. -/
theorem create_order_total_from_request (db : DB) (od : OrderCreate)
    (newId : String) (db' : DB) (order : Order)
    (h : create_order db od newId = .ok (db', order)) :
    order.total
      = (od.items.map (fun i => i.preco * (i.quantidade : Rat))).sum
    ∧ order.items = od.items
    ∧ ∀ g : String → Rat,
        (create_order
          { db with products :=
              db.products.map (fun p => { p with preco := g p.id }) }
          od newId).toOption.map Prod.snd = some order := by
  obtain ⟨hval, hord, _⟩ := create_order_ok_inv h
  subst hord
  refine ⟨rfl, rfl, ?_⟩
  intro g
  have hval2 : validateItems
      (db.products.map (fun p => { p with preco := g p.id })) od.items
      = none := by
    rw [validateItems_map_preco g od.items]
    exact hval
  simp only [create_order, hval2]
  rfl

def odC3Fix : OrderCreate :=
  { vendor_id := "B", cliente_nome := "Joao", cliente_telefone := "99"
    cliente_endereco := "Rua 1", observacoes := none
    items := [
      { product_id := "p1", nome := "Tomate", preco := 12, quantidade := 2 }] }

def orderC3Fix : Order :=
  { id := "o1", vendor_id := "B", cliente_nome := "Joao"
    cliente_telefone := "99", cliente_endereco := "Rua 1"
    observacoes := none
    items := odC3Fix.items
    total := (odC3Fix.items.map
      (fun i => i.preco * (i.quantidade : Rat))).sum
    status := "novo" }

def dbC3Fix : DB :=
  { vendors := [vendorA, vendorB]
    products := [{ prodT with quantidade := 3 }, prodU]
    orders := [orderC3Fix] }

theorem create_order_total_from_request_witness :
    orderC3Fix.total
      = (odC3Fix.items.map (fun i => i.preco * (i.quantidade : Rat))).sum
    ∧ orderC3Fix.items = odC3Fix.items
    ∧ ∀ g : String → Rat,
        (create_order
          { dbFix with products :=
              dbFix.products.map (fun p => { p with preco := g p.id }) }
          odC3Fix "o1").toOption.map Prod.snd = some orderC3Fix :=
  create_order_total_from_request dbFix odC3Fix "o1" dbC3Fix orderC3Fix
    rfl

/-- C4 (counterexample to the claim as stated): starting from `dbFix`,
whose products all hold non-negative stock, a single sequential
`create_product` request carrying a negative quantity (which the API does
not reject) leaves a product with negative quantity in the store. -/
theorem negative_stock_reachable :
    (∀ p ∈ dbFix.products, 0 ≤ p.quantidade)
    ∧ ∃ p ∈ (run dbFix
        [Op.createProduct "A" "p3"
          { nome := "x", descricao := "y", preco := 1, quantidade := -5
            categoria := "c", imagem := none }]).products,
        p.quantidade < 0 := by
  decide

/-- C4 (amended): under sequential execution, every product's quantity
stays non-negative after each operation, provided every
`create_product`/`update_product` request carries a non-negative quantity
and no `create_order` request repeats a product id among its line items
(`goodOp`).  (Without those two provisos the code violates the
invariant.) -/
theorem run_preserves_nonneg_stock (db : DB) (ops : List Op)
    (h0 : ∀ p ∈ db.products, 0 ≤ p.quantidade)
    (hops : ∀ op ∈ ops, goodOp op = true) :
    ∀ (ops1 ops2 : List Op), ops = ops1 ++ ops2 →
      ∀ p ∈ (run db ops1).products, 0 ≤ p.quantidade := by
  intro ops1 ops2 heq
  refine run_nonneg_aux ops1 db h0 ?_
  intro o ho
  exact hops o (heq ▸ List.mem_append_left ops2 ho)

theorem run_preserves_nonneg_stock_witness :
    0 ≤ ({ prodT with quantidade := 3 } : Product).quantidade :=
  run_preserves_nonneg_stock dbFix [Op.createOrder odPairFix "o1"]
    (by decide) (by decide) [Op.createOrder odPairFix "o1"] [] rfl
    { prodT with quantidade := 3 }
    (by show _ ∈ (run dbFix [Op.createOrder odPairFix "o1"]).products
        exact List.Mem.head _)

/-- C5 (counterexample to the claim as stated): from a store with no
vendor at all, `create_order` happily persists an order whose `vendor_id`
is `"fantasma"`, an id no Vendor record carries — the handler never looks
at the vendors collection. -/
def dbGhost : DB := { vendors := [], products := [prodT], orders := [] }

def odGhost : OrderCreate :=
  { vendor_id := "fantasma", cliente_nome := "Joao"
    cliente_telefone := "99", cliente_endereco := "Rua 1"
    observacoes := none
    items := [
      { product_id := "p1", nome := "Tomate", preco := 1, quantidade := 1 }] }

theorem create_order_ghost_vendor :
    (∀ v ∈ dbGhost.vendors, v.id ≠ "fantasma")
    ∧ ((create_order dbGhost odGhost "o1").toOption.map
        (fun r => (r.2.vendor_id, r.1.orders.length)) = some ("fantasma", 1)) := by
  decide

/-- C5 (amended): a successfully created order's `vendor_id` is the
request-supplied `vendor_id`, copied verbatim; the vendors collection is
neither consulted nor changed, so the order references an existing vendor
only if the client happened to supply one. -/
theorem create_order_vendor_id_from_request (db : DB) (od : OrderCreate)
    (newId : String) (db' : DB) (order : Order)
    (h : create_order db od newId = .ok (db', order)) :
    order.vendor_id = od.vendor_id ∧ db'.vendors = db.vendors := by
  obtain ⟨_, hord, hdb⟩ := create_order_ok_inv h
  subst hord
  subst hdb
  exact ⟨rfl, rfl⟩

theorem create_order_vendor_id_from_request_witness :
    orderC3Fix.vendor_id = odC3Fix.vendor_id
    ∧ dbC3Fix.vendors = dbFix.vendors :=
  create_order_vendor_id_from_request dbFix odC3Fix "o1" dbC3Fix orderC3Fix
    rfl

/-- C6: `create_order` matches and decrements products by id alone,
never comparing the product's `vendor_id` with the order's: here an order
recorded under vendor `A` carries a line item for product `p1`, which is
owned by vendor `B`, and `p1`'s stock is decremented from 5 to 3 while
the order is persisted under `A`. -/
def odCrossFix : OrderCreate :=
  { vendor_id := "A", cliente_nome := "Joao", cliente_telefone := "99"
    cliente_endereco := "Rua 1", observacoes := none
    items := [
      { product_id := "p1", nome := "Tomate", preco := 12, quantidade := 2 }] }

theorem create_order_cross_vendor :
    ((dbFix.products.find? (fun p => p.id == "p1")).map Product.vendor_id
      = some "B")
    ∧ ((create_order dbFix odCrossFix "o1").toOption.map
        (fun r => r.2.vendor_id) = some "A")
    ∧ ((create_order dbFix odCrossFix "o1").toOption.map
        (fun r => r.1.products.map
          (fun p => (p.id, p.vendor_id, p.quantidade)))
      = some [("p1", "B", 3), ("p2", "A", 4)])
    ∧ ((create_order dbFix odCrossFix "o1").toOption.map
        (fun r => r.1.orders.map Order.vendor_id) = some ["A"]) := by
  decide

/-- C7: when a product with the given id exists but belongs to a vendor
other than the caller, `update_product` and `delete_product` both fail
with 404 and leave the store unchanged. -/
theorem foreign_product_update_delete_404 (db : DB) (v pid : String)
    (pd : ProductCreate)
    (_hex : ∃ p ∈ db.products, p.id = pid)
    (hother : ∀ p ∈ db.products, p.id = pid → p.vendor_id ≠ v) :
    update_product db v pid pd = .error (.http 404 "Produto não encontrado")
    ∧ delete_product db v pid = .error (.http 404 "Produto não encontrado")
    ∧ step db (.updateProduct v pid pd) = db
    ∧ step db (.deleteProduct v pid) = db := by
  have hnone : db.products.find?
      (fun p => p.id == pid && p.vendor_id == v) = none := by
    rw [List.find?_eq_none]
    intro p hp
    simp only [Bool.and_eq_true, beq_iff_eq, not_and]
    exact fun h1 => hother p hp h1
  have hany : db.products.any
      (fun p => p.id == pid && p.vendor_id == v) = false := by
    rw [List.any_eq_false]
    intro p hp
    simp only [Bool.and_eq_true, beq_iff_eq, not_and]
    exact fun h1 => hother p hp h1
  refine ⟨?_, ?_, ?_, ?_⟩
  · simp [update_product, hnone]
  · simp [delete_product, hany]
  · simp [step, update_product, hnone]
  · simp [step, delete_product, hany]

theorem foreign_product_update_delete_404_witness :
    update_product dbFix "A" "p1"
        { nome := "x", descricao := "y", preco := 1, quantidade := 1
          categoria := "c", imagem := none }
      = .error (.http 404 "Produto não encontrado")
    ∧ delete_product dbFix "A" "p1"
      = .error (.http 404 "Produto não encontrado")
    ∧ step dbFix (.updateProduct "A" "p1"
        { nome := "x", descricao := "y", preco := 1, quantidade := 1
          categoria := "c", imagem := none }) = dbFix
    ∧ step dbFix (.deleteProduct "A" "p1") = dbFix :=
  foreign_product_update_delete_404 dbFix "A" "p1"
    { nome := "x", descricao := "y", preco := 1, quantidade := 1
      categoria := "c", imagem := none }
    (by decide) (by decide)

/-- C8: `update_order_status` fails with 404 exactly when no order with
the given id is owned by the calling vendor; otherwise it succeeds for
every string `s`, setting the matched order's status to `s` verbatim
(no transition validation) and touching nothing else.  Order ids are
assumed pairwise distinct (they are generated uuids). -/
theorem update_order_status_spec (db : DB) (v oid s : String)
    (hnd : (db.orders.map Order.id).Nodup) :
    (update_order_status db v oid s
        = .error (.http 404 "Pedido não encontrado")
      ↔ ∀ o ∈ db.orders, ¬(o.id = oid ∧ o.vendor_id = v))
    ∧ ∀ db', update_order_status db v oid s = .ok db' →
        db'.vendors = db.vendors ∧ db'.products = db.products
        ∧ db'.orders = db.orders.map (fun o =>
            if o.id = oid ∧ o.vendor_id = v
            then { o with status := s } else o) := by
  by_cases hany : db.orders.any (fun o => o.id == oid && o.vendor_id == v)
  · constructor
    · constructor
      · intro h
        simp [update_order_status, hany] at h
      · intro hall
        obtain ⟨o, ho, hpo⟩ := List.any_eq_true.mp hany
        simp only [Bool.and_eq_true, beq_iff_eq] at hpo
        exact absurd hpo (hall o ho)
    · intro db' h
      simp only [update_order_status, hany, if_true] at h
      injection h with h1
      subst h1
      refine ⟨rfl, rfl, ?_⟩
      have himp : ∀ o ∈ db.orders,
          (o.id == oid && o.vendor_id == v) = true → (o.id == oid) = true :=
        fun o _ hh => (Bool.and_eq_true _ _ |>.mp hh).1
      have hle : (db.orders.filter
          (fun o => o.id == oid && o.vendor_id == v)).length ≤ 1 :=
        le_trans (filter_length_le_of_imp db.orders himp)
          (filter_key_length_le_one hnd)
      show mongoUpdateOne _ _ db.orders = _
      rw [mongoUpdateOne_eq_map hle]
      refine List.map_congr_left ?_
      intro o _
      by_cases hc : o.id = oid ∧ o.vendor_id = v
      · rw [if_pos (by simp [hc.1, hc.2]), if_pos hc]
      · rw [if_neg (by simpa using hc), if_neg hc]
  · constructor
    · constructor
      · intro _
        intro o ho hc
        have hfa := List.any_eq_false.mp (Bool.eq_false_iff.mpr hany) o ho
        simp only [Bool.and_eq_true, beq_iff_eq] at hfa
        exact hfa hc
      · intro _
        simp [update_order_status, hany]
    · intro db' h
      simp [update_order_status, hany] at h

def orderFix : Order :=
  { id := "o1", vendor_id := "A", cliente_nome := "J"
    cliente_telefone := "9", cliente_endereco := "r"
    observacoes := none, items := [], total := 10, status := "novo" }

def dbOrdersFix : DB :=
  { vendors := [vendorA], products := [], orders := [orderFix] }

theorem update_order_status_spec_witness :
    (update_order_status dbOrdersFix "A" "o1" "qualquer-coisa"
        = .error (.http 404 "Pedido não encontrado")
      ↔ ∀ o ∈ dbOrdersFix.orders, ¬(o.id = "o1" ∧ o.vendor_id = "A"))
    ∧ ∀ db', update_order_status dbOrdersFix "A" "o1" "qualquer-coisa"
          = .ok db' →
        db'.vendors = dbOrdersFix.vendors
        ∧ db'.products = dbOrdersFix.products
        ∧ db'.orders = dbOrdersFix.orders.map (fun o =>
            if o.id = "o1" ∧ o.vendor_id = "A"
            then { o with status := "qualquer-coisa" } else o) :=
  update_order_status_spec dbOrdersFix "A" "o1" "qualquer-coisa" (by decide)

/-- C9 (counterexample to the claim as stated): a listing request with
`limit = 150` is rejected with a 422 validation error — FastAPI enforces
`Query(ge=1, le=100)` as a constraint — rather than being served with the
nearest bound 100 (which would have returned vendor `B`'s one product). -/
theorem limit_out_of_range_rejected :
    get_my_products dbFix "B" 0 150
      = .error (.http 422 "validation error")
    ∧ ((get_my_products dbFix "B" 0 100).toOption.map
        (fun r => (r.1, r.2.map Product.id)) = some (1, ["p1"])) := by
  decide

/-- C9 (amended): a paginated listing succeeds exactly when
`skip >= 0` and `1 <= limit <= 100`; out-of-range values are rejected
with a 422 validation error, never clamped. -/
theorem pagination_reject_spec (db : DB) (v : String) (skip limit : Int) :
    ((∃ r, get_my_products db v skip limit = .ok r)
      ↔ 0 ≤ skip ∧ 1 ≤ limit ∧ limit ≤ 100)
    ∧ ((∃ r, get_my_orders db v skip limit = .ok r)
      ↔ 0 ≤ skip ∧ 1 ≤ limit ∧ limit ≤ 100)
    ∧ (¬(0 ≤ skip ∧ 1 ≤ limit ∧ limit ≤ 100) →
        get_my_products db v skip limit
          = .error (.http 422 "validation error")
        ∧ get_my_orders db v skip limit
          = .error (.http 422 "validation error")) := by
  by_cases h1 : skip < 0
  · simp [get_my_products, get_my_orders, validatePagination, h1]
  · by_cases h2 : limit < 1
    · simp [get_my_products, get_my_orders, validatePagination, h1, h2]
    · by_cases h3 : 100 < limit
      · simp [get_my_products, get_my_orders, validatePagination, h1, h2, h3]
      · simp [get_my_products, get_my_orders, validatePagination, h1, h2, h3]
        omega

theorem pagination_reject_spec_witness :
    ((∃ r, get_my_products dbFix "B" 0 150 = .ok r)
      ↔ 0 ≤ (0 : Int) ∧ 1 ≤ (150 : Int) ∧ (150 : Int) ≤ 100)
    ∧ ((∃ r, get_my_orders dbFix "B" 0 150 = .ok r)
      ↔ 0 ≤ (0 : Int) ∧ 1 ≤ (150 : Int) ∧ (150 : Int) ≤ 100)
    ∧ (¬(0 ≤ (0 : Int) ∧ 1 ≤ (150 : Int) ∧ (150 : Int) ≤ 100) →
        get_my_products dbFix "B" 0 150
          = .error (.http 422 "validation error")
        ∧ get_my_orders dbFix "B" 0 150
          = .error (.http 422 "validation error")) :=
  pagination_reject_spec dbFix "B" 0 150

/-- C10 (counterexample to the claim as stated): the dashboard reads at
most the first 1000 of the vendor's orders (`to_list(1000)`), so for a
vendor with 1001 orders of total 1 each, `total_vendas` is 1000 while
the sum over all their orders is 1001. -/
def bigOrderFix : Order :=
  { id := "o", vendor_id := "V", cliente_nome := "c"
    cliente_telefone := "t", cliente_endereco := "e"
    observacoes := none, items := [], total := 1, status := "novo" }

def dbBigFix : DB :=
  { vendors := [], products := []
    orders := List.replicate 1001 bigOrderFix }

theorem dashboard_caps_at_1000 :
    (get_dashboard dbBigFix "V").total_vendas = 1000
    ∧ ((dbBigFix.orders.filter
        (fun o => o.vendor_id == "V")).map Order.total).sum = 1001
    ∧ (get_dashboard dbBigFix "V").total_vendas
      ≠ ((dbBigFix.orders.filter
          (fun o => o.vendor_id == "V")).map Order.total).sum := by
  have hfil : dbBigFix.orders.filter (fun o => o.vendor_id == "V")
      = List.replicate 1001 bigOrderFix := by
    refine List.filter_replicate_of_pos ?_
    rfl
  have hsum : ∀ n : Nat,
      ((List.replicate n bigOrderFix).map Order.total).sum = (n : Rat) := by
    intro n
    rw [List.map_replicate, List.sum_replicate]
    show n • (1 : Rat) = (n : Rat)
    simp
  have htake : (List.replicate 1001 bigOrderFix).take 1000
      = List.replicate 1000 bigOrderFix := by
    rw [take_replicate_comm]
    norm_num
  have h1 : (get_dashboard dbBigFix "V").total_vendas = 1000 := by
    simp only [get_dashboard, hfil, htake]
    rw [hsum 1000]
    norm_num
  have h2 : ((dbBigFix.orders.filter
      (fun o => o.vendor_id == "V")).map Order.total).sum = 1001 := by
    rw [hfil, hsum 1001]
    norm_num
  refine ⟨h1, h2, ?_⟩
  rw [h1, h2]
  norm_num

/-- C10 (amended): for a vendor with at most 1000 orders (the query cap),
the dashboard `total_vendas` is the sum of `total` over all that vendor's
orders, and it never consults order statuses — relabelling every status
arbitrarily (e.g. to "cancelado") leaves the figure unchanged. -/
theorem dashboard_total_all_statuses (db : DB) (v : String)
    (hlen : (db.orders.filter (fun o => o.vendor_id == v)).length ≤ 1000) :
    (get_dashboard db v).total_vendas
      = ((db.orders.filter (fun o => o.vendor_id == v)).map Order.total).sum
    ∧ ∀ f : Order → String,
        (get_dashboard
          { db with orders :=
              db.orders.map (fun o => { o with status := f o }) }
          v).total_vendas = (get_dashboard db v).total_vendas := by
  constructor
  · simp only [get_dashboard]
    rw [List.take_of_length_le hlen]
  · intro f
    simp only [get_dashboard]
    have hfm : (db.orders.map
          (fun o => { o with status := f o })).filter
        (fun o => o.vendor_id == v)
        = (db.orders.filter (fun o => o.vendor_id == v)).map
            (fun o => { o with status := f o }) :=
      filter_map_pred_eq
        (f := fun o => { o with status := f o })
        (p := fun o => o.vendor_id == v) (fun o => rfl) db.orders
    rw [hfm, ← List.map_take, List.map_map]
    exact congrArg List.sum (List.map_congr_left (fun o _ => rfl))

theorem dashboard_total_all_statuses_witness :
    (get_dashboard dbOrdersFix "A").total_vendas
      = ((dbOrdersFix.orders.filter
          (fun o => o.vendor_id == "A")).map Order.total).sum
    ∧ ∀ f : Order → String,
        (get_dashboard
          { dbOrdersFix with orders :=
              dbOrdersFix.orders.map (fun o => { o with status := f o }) }
          "A").total_vendas = (get_dashboard dbOrdersFix "A").total_vendas :=
  dashboard_total_all_statuses dbOrdersFix "A" (by decide)

end Feirantes
